import Mathlib

/-!
# terraflex: plugin discovery and launch (plugins.go)

A shallow embedding of `src/terraflex/plugins.go`.

* Go `string` values are Lean `String`s.  The only bytes the program inspects are the
  ASCII bytes `.`, `-` and `/`, which never occur inside a multi-byte UTF-8 sequence, so
  cutting at characters agrees with cutting at bytes on every UTF-8 encoded name.
* The operating system is an explicit environment `Env`: the answers of `os.Getwd`,
  `filepath.Glob`, `osext.Executable`, `os.Stat`, `exec.LookPath` and of the plugin
  transport library are fields of it, and stay fixed during one call.
* The pure library functions (`strings.Index`, `strings.SplitN`, `filepath.Base`,
  `filepath.Dir`, `filepath.Clean`, `filepath.Join`, ...) are modelled after the behaviour
  the Go standard library documents for Unix, where `os.PathSeparator` is `/` and there
  are no volume names.
* A function that writes through a pointer and returns an `error` becomes a function that
  returns the new value together with `Option Error`.
-/

namespace terraflex

/-! ## Library: package os -/

namespace os

/-- The constant os.PathSeparator on Unix. -/
def PathSeparator : Char := '/'

/-- The function os.IsPathSeparator on Unix. -/
def IsPathSeparator (c : Char) : Bool := c == PathSeparator

end os

/-! ## Library: package strings -/

namespace strings

/-- Offset (counted from `i`) of the first place in the text where `substr` starts,
or `-1` when there is none. -/
def indexFrom (substr : List Char) : List Char → Nat → Int
  | [], i => if substr = [] then (i : Int) else -1
  | c :: cs, i =>
    if substr.isPrefixOf (c :: cs) then (i : Int) else indexFrom substr cs (i + 1)

/-- The function strings.Index: index of the first instance of `substr` in `s`,
or `-1` if `substr` is not present in `s`. -/
def Index (s substr : String) : Int := indexFrom substr.data s.data 0

/-- The function strings.ContainsRune. -/
def ContainsRune (s : String) (r : Char) : Bool := List.elem r s.data

/-- The function strings.HasPrefix. -/
def HasPrefix (s pre : String) : Bool := pre.data.isPrefixOf s.data

/-- The loop of genSplit: at most `k` further cuts at `sep`, then the remainder. -/
def splitLoop (sep : List Char) : Nat → List Char → List (List Char)
  | 0, s => [s]
  | k + 1, s =>
    let m := indexFrom sep s 0
    if m < 0 then [s]
    else s.take m.toNat :: splitLoop sep k (s.drop (m.toNat + sep.length))

/-- The function strings.SplitN for a count `n ≥ 0` and a non-empty separator, which is
how plugins.go calls it: `n = 0` gives no parts, otherwise at most `n` parts, the last
one being the unsplit remainder. -/
def SplitN (s sep : String) (n : Nat) : List String :=
  if n = 0 then [] else (splitLoop sep.data (n - 1) s.data).map String.mk

/-- The function strings.Join. -/
def Join : List String → String → String
  | [], _ => ""
  | [a], _ => a
  | a :: b :: rest, sep => a ++ sep ++ Join (b :: rest) sep

end strings

/-! ## Library: package path/filepath (Unix) -/

namespace filepath

/-- The function filepath.IsAbs on Unix: the path begins with a slash. -/
def IsAbs (path : String) : Bool := strings.HasPrefix path "/"

/-- The path elements of a path: the pieces between separators (possibly empty). -/
def splitElems : List Char → List (List Char)
  | [] => [[]]
  | c :: cs =>
    if os.IsPathSeparator c then [] :: splitElems cs
    else
      match splitElems cs with
      | [] => [[c]]
      | e :: es => (c :: e) :: es

/-- One round of the loop of Clean, on one path element.  `out` holds the elements
kept so far, the most recent one first. -/
def cleanStep (rooted : Bool) (out : List (List Char)) (elem : List Char) :
    List (List Char) :=
  if elem = [] then out
  else if elem = ['.'] then out
  else if elem = ['.', '.'] then
    match out with
    | top :: rest =>
      if top = ['.', '.'] then (if rooted then out else elem :: out) else rest
    | [] => if rooted then out else [elem]
  else elem :: out

/-- Elements joined by single separators. -/
def joinElems : List (List Char) → List Char
  | [] => []
  | [e] => e
  | e :: f :: rest => e ++ os.PathSeparator :: joinElems (f :: rest)

/-- The function filepath.Clean on Unix: the shortest equivalent path by purely
lexical processing (no doubled separators, no `.` elements, no inner `..` elements,
no `..` at the start of a rooted path, `.` for the empty result). -/
def Clean (path : String) : String :=
  if path = "" then "."
  else
    let rooted := filepath.IsAbs path
    let kept := ((splitElems path.data).foldl (cleanStep rooted) []).reverse
    let out := (if rooted then [os.PathSeparator] else []) ++ joinElems kept
    if out = [] then "." else String.mk out

/-- The function filepath.Join: the non-empty tail of the elements joined with the
separator and cleaned; empty leading elements are ignored. -/
def Join : List String → String
  | [] => ""
  | e :: rest =>
    if e ≠ "" then Clean (strings.Join (e :: rest) (String.mk [os.PathSeparator]))
    else Join rest

/-- The function filepath.Base on Unix: the last element of the path, trailing
separators removed first; `.` for the empty path and `/` for a path of separators. -/
def Base (path : String) : String :=
  if path = "" then "."
  else
    let stripped := (path.data.reverse.dropWhile os.IsPathSeparator).reverse
    let last := (stripped.reverse.takeWhile (fun c => !os.IsPathSeparator c)).reverse
    if last = [] then String.mk [os.PathSeparator] else String.mk last

/-- The function filepath.Dir on Unix: everything up to the last separator, cleaned. -/
def Dir (path : String) : String :=
  Clean (String.mk (path.data.reverse.dropWhile (fun c => !os.IsPathSeparator c)).reverse)

end filepath

/-! ## Library: package os/exec and the plugin transport -/

namespace exec

/-- The command descriptor built by exec.Command: the name it was given and the
argument vector, whose only entry is that name when no arguments are passed. -/
structure Cmd where
  Path : String
  Args : List String
deriving DecidableEq

/-- The function exec.Command called with a name and no further arguments.  The record
keeps the name the caller bound the command to; the search that the library itself runs
for a name without a directory when the command is built is not part of this model. -/
def Command (name : String) : Cmd := { Path := name, Args := [name] }

end exec

/-- The fields of plugin.ClientConfig that plugins.go sets. -/
structure ClientConfig where
  Cmd : exec.Cmd
  Managed : Bool
deriving DecidableEq

/-- An error value as plugins.go can return it: either the error of a library call
(kept by its message), or one built in this package by fmt.Errorf from a format
string and one operand. -/
inductive Error where
  | lib (msg : String)
  | Errorf (format : String) (operand : String)
deriving DecidableEq

/-- The outside world as plugins.go sees it.  The last two fields record what the
libraries document of their results: os.Getwd returns a rooted path name, and a
successful exec.LookPath never hands back the empty string (it returns the file itself
or a directory joined with it). -/
structure Env where
  Getwd : Except String String
  Glob : String → Except String (List String)
  Executable : Except String String
  Stat : String → Except String Unit
  LookPath : String → Except String String
  Client : ClientConfig → Except String Nat
  ResourceProvider : Nat → Except String Nat
  ResourceProvisioner : Nat → Except String Nat
  Getwd_rooted : ∀ wd, Getwd = Except.ok wd → filepath.IsAbs wd = true
  LookPath_nonempty : ∀ file v, LookPath file = Except.ok v → v ≠ ""

namespace filepath

/-- The function filepath.Abs on Unix. -/
def Abs (env : Env) (path : String) : Except String String :=
  if IsAbs path then Except.ok (Clean path)
  else
    match env.Getwd with
    | Except.error e => Except.error e
    | Except.ok wd => Except.ok (Join [wd, path])

end filepath

/-! ## Data model -/

/-- A Go value of type map[string]string: the nil map, or an allocated map given by
its entries (at most one per key). -/
inductive StringMap where
  | nil
  | made (entries : List (String × String))
deriving DecidableEq

/-- Entry lookup in the entries of an allocated map. -/
def entriesGet : List (String × String) → String → Option String
  | [], _ => none
  | (k, v) :: rest, key => if key = k then some v else entriesGet rest key

/-- Entry assignment: overwrite the value of an existing key, or add a new entry. -/
def entriesSet : List (String × String) → String → String → List (String × String)
  | [], key, val => [(key, val)]
  | (k, v) :: rest, key, val =>
    if key = k then (k, val) :: rest else (k, v) :: entriesSet rest key val

/-- The two-result index expression `v, ok := m[key]`; reading the nil map finds
nothing. -/
def StringMap.get (m : StringMap) (key : String) : Option String :=
  match m with
  | StringMap.nil => none
  | StringMap.made es => entriesGet es key

/-- The struct Plugins. -/
structure Plugins where
  providerNames : StringMap
  provisionerNames : StringMap
deriving DecidableEq

/-! ## plugins.go -/

/-- Lines 79-87 of the loop body: the parts the base name of one glob match splits
into. -/
def nameParts (mtch : String) : List String :=
  let file := filepath.Base mtch
  let idx := strings.Index file "."
  let file := if idx ≥ 0 then String.mk (file.data.take idx.toNat) else file
  strings.SplitN file "-" 3

/-- Lines 88-90 and the index expression of line 92: the plugin name of one glob match,
or `none` when the loop body reaches `continue`. -/
def pluginName (mtch : String) : Option String :=
  let parts := nameParts mtch
  if h : parts.length ≠ 3 then none
  else some (parts.get ⟨2, by omega⟩)

/-- The body of the loop of discoverPluginsByPattern (lines 78-93) on the allocated
map. -/
def registerMatch (es : List (String × String)) (mtch : String) : List (String × String) :=
  match pluginName mtch with
  | none => es
  | some name => entriesSet es name mtch

/-- The function discoverPluginsByPattern: the map after the call, and the error. -/
def discoverPluginsByPattern (env : Env) (glob : String) (m : StringMap) :
    StringMap × Option Error :=
  match env.Glob glob with
  | Except.error e => (m, some (Error.lib e))
  | Except.ok matched =>
    let es :=
      match m with
      | StringMap.nil => []
      | StringMap.made es => es
    (StringMap.made (matched.foldl registerMatch es), none)

/-- Lines 46-51 of discoverPluginsInDir: the directory that is scanned, or the error
of filepath.Abs. -/
def scanDir (env : Env) (path : String) : Except String String :=
  if !filepath.IsAbs path then filepath.Abs env path else Except.ok path

/-- The function discoverPluginsInDir: the struct after the call, and the error. -/
def discoverPluginsInDir (env : Env) (path : String) (plugins : Plugins) :
    Plugins × Option Error :=
  match scanDir env path with
  | Except.error e => (plugins, some (Error.lib e))
  | Except.ok path =>
    match discoverPluginsByPattern env
        (filepath.Join [path, "terraform-provider-*"]) plugins.providerNames with
    | (providers, some err) => ({ plugins with providerNames := providers }, some err)
    | (providers, none) =>
      let plugins := { plugins with providerNames := providers }
      match discoverPluginsByPattern env
          (filepath.Join [path, "terraform-provisioner-*"]) plugins.provisionerNames with
      | (provisioners, some err) =>
        ({ plugins with provisionerNames := provisioners }, some err)
      | (provisioners, none) =>
        ({ plugins with provisionerNames := provisioners }, none)

/-- The function DiscoverPlugins: its result, and the lines it writes to the log. -/
def DiscoverPlugins (env : Env) : Except Error Plugins × List String :=
  let plugins : Plugins :=
    { providerNames := StringMap.nil, provisionerNames := StringMap.nil }
  match discoverPluginsInDir env "." plugins with
  | (_, some err) => (Except.error err, [])
  | (plugins, none) =>
    match env.Executable with
    | Except.error err =>
      (Except.ok plugins, ["[ERR] Error loading exe directory: " ++ err])
    | Except.ok exePath =>
      match discoverPluginsInDir env (filepath.Dir exePath) plugins with
      | (_, some err) => (Except.error err, [])
      | (plugins, none) => (Except.ok plugins, [])

/-- The method HasProvider. -/
def HasProvider (p : Plugins) (name : String) : Bool :=
  (p.providerNames.get name).isSome

/-- The method HasProvisioner. -/
def HasProvisioner (p : Plugins) (name : String) : Bool :=
  (p.provisionerNames.get name).isSome

/-- The function pluginCmd. -/
def pluginCmd (env : Env) (path : String) : exec.Cmd :=
  let cmdPath := ""
  let cmdPath :=
    if !strings.ContainsRune path os.PathSeparator then
      let cmdPath :=
        match env.Executable with
        | Except.ok exePath =>
          let temp := filepath.Join [filepath.Dir exePath, filepath.Base path]
          match env.Stat temp with
          | Except.ok _ => temp
          | Except.error _ => cmdPath
        | Except.error _ => cmdPath
      match env.LookPath path with
      | Except.ok v => v
      | Except.error _ => cmdPath
    else cmdPath
  let cmdPath := if cmdPath = "" then path else cmdPath
  exec.Command cmdPath

/-- The method OpenProvider. -/
def OpenProvider (env : Env) (p : Plugins) (name : String) : Except Error Nat :=
  match p.providerNames.get name with
  | none => Except.error (Error.Errorf "No provider named %#v" name)
  | some path =>
    let config : ClientConfig := { Cmd := pluginCmd env path, Managed := true }
    match env.Client config with
    | Except.error err => Except.error (Error.lib err)
    | Except.ok rpcClient =>
      match env.ResourceProvider rpcClient with
      | Except.error err => Except.error (Error.lib err)
      | Except.ok provider => Except.ok provider

/-- The method OpenProvisioner. -/
def OpenProvisioner (env : Env) (p : Plugins) (name : String) : Except Error Nat :=
  match p.provisionerNames.get name with
  | none => Except.error (Error.Errorf "No provisioner named %#v" name)
  | some path =>
    let config : ClientConfig := { Cmd := pluginCmd env path, Managed := true }
    match env.Client config with
    | Except.error err => Except.error (Error.lib err)
    | Except.ok rpcClient =>
      match env.ResourceProvisioner rpcClient with
      | Except.error err => Except.error (Error.lib err)
      | Except.ok provisioner => Except.ok provisioner

/-! ## The reference definition of the plugin name, and notions used in the statements -/

/-- The specification's plugin name of a base name: strip everything from the first
"." onward, split the remainder on "-" into at most three parts, require exactly
three parts, take the third. -/
def specPluginName (base : String) : Option String :=
  let stem := base.data.takeWhile (fun c => c != '.')
  match stem.span (fun c => c != '-') with
  | (_, []) => none
  | (_, _ :: afterFirst) =>
    match afterFirst.span (fun c => c != '-') with
    | (_, []) => none
    | (_, _ :: third) => some (String.mk third)

/-- The base name of a match after cutting at its first ".". -/
def stemOf (mtch : String) : List Char :=
  (filepath.Base mtch).data.takeWhile (fun c => c != '.')

/-- The last match, in list order, whose plugin name is the given name. -/
def lastMatchFor (name : String) (found : List String) : Option String :=
  (found.filter (fun p => decide (pluginName p = some name))).getLast?

/-- The file next to the host executable that pluginCmd looks for, when the host
executable can be located and that file exists. -/
def hostAdjacent (env : Env) (path : String) : Option String :=
  match env.Executable with
  | Except.error _ => none
  | Except.ok exePath =>
    match env.Stat (filepath.Join [filepath.Dir exePath, filepath.Base path]) with
    | Except.error _ => none
    | Except.ok _ => some (filepath.Join [filepath.Dir exePath, filepath.Base path])

/-- Every path stored in either mapping of the catalog has the property `P`. -/
def storesOnly (P : String → Prop) (plugins : Plugins) : Prop :=
  (∀ k v, plugins.providerNames.get k = some v → P v) ∧
  (∀ k v, plugins.provisionerNames.get k = some v → P v)

/-! ## Concrete environments -/

/-- A machine whose working directory `/work` holds three provider plugins and whose
host executable `/opt/tf/terraflex` has one provider and one provisioner next to it. -/
def scanEnv : Env where
  Getwd := Except.ok "/work"
  Glob := fun pat =>
    if pat = "/work/terraform-provider-*" then
      Except.ok ["/work/terraform-provider-aws", "/work/terraform-provider-aws.exe",
        "/work/terraform-provider-x"]
    else if pat = "/opt/tf/terraform-provider-*" then
      Except.ok ["/opt/tf/terraform-provider-x"]
    else if pat = "/opt/tf/terraform-provisioner-*" then
      Except.ok ["/opt/tf/terraform-provisioner-shell"]
    else Except.ok []
  Executable := Except.ok "/opt/tf/terraflex"
  Stat := fun _ => Except.error "no such file or directory"
  LookPath := fun _ => Except.error "executable file not found in $PATH"
  Client := fun _ => Except.error "plugin did not start"
  ResourceProvider := fun _ => Except.error "no client"
  ResourceProvisioner := fun _ => Except.error "no client"
  Getwd_rooted := by
    intro wd h
    cases h
    rfl
  LookPath_nonempty := by
    intro file v h
    cases h

/-- A machine where the plugin terraform-provider-aws lies next to the host executable
`/opt/tf/terraflex` and is also found on the PATH, in `/usr/bin`. -/
def bothEnv : Env where
  Getwd := Except.ok "/work"
  Glob := fun _ => Except.ok []
  Executable := Except.ok "/opt/tf/terraflex"
  Stat := fun p =>
    if p = "/opt/tf/terraform-provider-aws" then Except.ok ()
    else Except.error "no such file or directory"
  LookPath := fun file =>
    if file = "terraform-provider-aws" then Except.ok "/usr/bin/terraform-provider-aws"
    else Except.error "executable file not found in $PATH"
  Client := fun _ => Except.error "plugin did not start"
  ResourceProvider := fun _ => Except.error "no client"
  ResourceProvisioner := fun _ => Except.error "no client"
  Getwd_rooted := by
    intro wd h
    cases h
    rfl
  LookPath_nonempty := by
    intro file v h
    simp only [] at h
    split at h
    · cases h
      decide
    · cases h

/-- A machine where the plugin terraform-provider-aws lies next to the host executable
`/opt/tf/terraflex` and nowhere on the PATH. -/
def hostOnlyEnv : Env where
  Getwd := Except.ok "/work"
  Glob := fun _ => Except.ok []
  Executable := Except.ok "/opt/tf/terraflex"
  Stat := fun p =>
    if p = "/opt/tf/terraform-provider-aws" then Except.ok ()
    else Except.error "no such file or directory"
  LookPath := fun _ => Except.error "executable file not found in $PATH"
  Client := fun _ => Except.error "plugin did not start"
  ResourceProvider := fun _ => Except.error "no client"
  ResourceProvisioner := fun _ => Except.error "no client"
  Getwd_rooted := by
    intro wd h
    cases h
    rfl
  LookPath_nonempty := by
    intro file v h
    cases h

/-- A machine where the plugin terraform-provider-aws is found on the PATH, in
`/usr/bin`, and there is no such file next to the host executable. -/
def pathOnlyEnv : Env where
  Getwd := Except.ok "/work"
  Glob := fun _ => Except.ok []
  Executable := Except.ok "/opt/tf/terraflex"
  Stat := fun _ => Except.error "no such file or directory"
  LookPath := fun file =>
    if file = "terraform-provider-aws" then Except.ok "/usr/bin/terraform-provider-aws"
    else Except.error "executable file not found in $PATH"
  Client := fun _ => Except.error "plugin did not start"
  ResourceProvider := fun _ => Except.error "no client"
  ResourceProvisioner := fun _ => Except.error "no client"
  Getwd_rooted := by
    intro wd h
    cases h
    rfl
  LookPath_nonempty := by
    intro file v h
    simp only [] at h
    split at h
    · cases h
      decide
    · cases h

/-- A machine whose directory `/work` lists two files that are no plugins before one
that is. -/
def looseEnv : Env where
  Getwd := Except.ok "/work"
  Glob := fun pat =>
    if pat = "/work/*" then
      Except.ok ["/work/badname", "/work/foo-bar", "/work/terraform-provider-aws"]
    else Except.ok []
  Executable := Except.error "cannot locate the executable"
  Stat := fun _ => Except.error "no such file or directory"
  LookPath := fun _ => Except.error "executable file not found in $PATH"
  Client := fun _ => Except.error "plugin did not start"
  ResourceProvider := fun _ => Except.error "no client"
  ResourceProvisioner := fun _ => Except.error "no client"
  Getwd_rooted := by
    intro wd h
    cases h
    rfl
  LookPath_nonempty := by
    intro file v h
    cases h

/-! ## Lemmas on the library functions -/

theorem take_of_append_eq {a b s : List Char} (h : a ++ b = s) : s.take a.length = a := by
  subst h; simp

theorem drop_of_append_eq {a b s : List Char} (n : Nat) (h : a ++ b = s) :
    s.drop (a.length + n) = b.drop n := by
  subst h
  rw [← List.drop_drop]
  simp

theorem indexFrom_single (c : Char) (s : List Char) (i : Nat) :
    strings.indexFrom [c] s i =
      match s.dropWhile (fun x => x != c) with
      | [] => -1
      | _ :: _ => (i : Int) + ((s.takeWhile (fun x => x != c)).length : Int) := by
  induction s generalizing i with
  | nil => simp [strings.indexFrom]
  | cons d ds ih =>
    rw [strings.indexFrom]
    by_cases h : c = d
    · subst h; simp [List.isPrefixOf]
    · have h2 : ¬ d = c := fun e => h e.symm
      have h3 : (d != c) = true := by simp [h2]
      have h4 : ((c == d) && true) = false := by simp [h]
      rw [List.isPrefixOf, List.isPrefixOf, h4, ih, List.dropWhile_cons, List.takeWhile_cons,
        if_pos h3, if_pos h3]
      cases ds.dropWhile (fun x => x != c) with
      | nil => simp
      | cons y ys =>
        simp only [List.length_cons, Bool.false_eq_true, if_false]
        push_cast
        ring

/-- One cut of the split loop at a single-character separator. -/
theorem splitLoop_single (c : Char) (k : Nat) (s : List Char) :
    strings.splitLoop [c] (k + 1) s =
      match s.span (fun x => x != c) with
      | (_, []) => [s]
      | (a, _ :: r) => a :: strings.splitLoop [c] k r := by
  rw [List.span_eq_take_drop, strings.splitLoop]
  simp only [indexFrom_single]
  have hs := List.takeWhile_append_dropWhile (fun x => x != c) s
  cases hd : s.dropWhile (fun x => x != c) with
  | nil => simp
  | cons y ys =>
    simp only []
    rw [hd] at hs
    have h1 : ¬ (((0 : Nat) : Int) + ((s.takeWhile (fun x => x != c)).length : Int) < 0) := by
      omega
    rw [if_neg h1]
    have e0 : (((0 : Nat) : Int) + ((s.takeWhile (fun x => x != c)).length : Int)).toNat
        = (s.takeWhile (fun x => x != c)).length := by
      omega
    rw [e0, take_of_append_eq hs, drop_of_append_eq _ hs]
    simp

/-- The models of Clean, Base, Dir, Join and SplitN on inputs whose results the Go
documentation and tests give. -/
theorem library_examples :
    filepath.Clean "abc//def//ghi" = "abc/def/ghi" ∧
    filepath.Clean "abc/def/../ghi/../jkl" = "abc/jkl" ∧
    filepath.Clean "/../abc" = "/abc" ∧
    filepath.Clean "abc/../../././../def" = "../../def" ∧
    filepath.Clean "" = "." ∧
    filepath.Clean "abc/" = "abc" ∧
    filepath.Clean "//" = "/" ∧
    filepath.Base "/foo/bar/baz.js" = "baz.js" ∧
    filepath.Base "/foo/bar/baz/" = "baz" ∧
    filepath.Base "" = "." ∧
    filepath.Base "///" = "/" ∧
    filepath.Dir "/foo/bar/baz.js" = "/foo/bar" ∧
    filepath.Dir "dev.txt" = "." ∧
    filepath.Dir "/" = "/" ∧
    filepath.Dir "" = "." ∧
    filepath.Join ["a", "b/c"] = "a/b/c" ∧
    filepath.Join ["a", ""] = "a" ∧
    filepath.Join ["", "b"] = "b" ∧
    filepath.Join ["a/b", "../../../xyz"] = "../xyz" ∧
    strings.SplitN "a,b,c,d" "," 2 = ["a", "b,c,d"] ∧
    strings.SplitN "a,b,c,d" "," 0 = [] ∧
    strings.Index "chicken" "ken" = 4 ∧
    strings.Index "chicken" "dmr" = -1 := by
  decide

/-- The cut at the first "." (lines 82-84) keeps the longest dot-free prefix. -/
theorem cut_data (file : String) :
    (if strings.Index file "." ≥ 0 then
        String.mk (file.data.take (strings.Index file ".").toNat)
      else file).data = file.data.takeWhile (fun c => c != '.') := by
  have hI : strings.Index file "." = strings.indexFrom ['.'] file.data 0 := rfl
  rw [hI, indexFrom_single]
  have hs := List.takeWhile_append_dropWhile (fun x => x != '.') file.data
  cases hd : file.data.dropWhile (fun x => x != '.') with
  | nil =>
    rw [hd, List.append_nil] at hs
    simp [hs]
  | cons y ys =>
    rw [hd] at hs
    have h1 : ((0 : Nat) : Int) + ((file.data.takeWhile (fun x => x != '.')).length : Int) ≥ 0 := by
      omega
    have e0 : (((0 : Nat) : Int) + ((file.data.takeWhile (fun x => x != '.')).length : Int)).toNat
        = (file.data.takeWhile (fun x => x != '.')).length := by
      omega
    simp only []
    rw [if_pos h1, e0, take_of_append_eq hs]

theorem nameParts_eq (mtch : String) :
    nameParts mtch = (strings.splitLoop ['-'] 2 (stemOf mtch)).map String.mk := by
  unfold nameParts stemOf strings.SplitN
  simp only [cut_data]
  rfl

theorem count_dropWhile (c : Char) (s : List Char) :
    s.count c =
      match s.dropWhile (fun x => x != c) with
      | [] => 0
      | _ :: r => r.count c + 1 := by
  induction s with
  | nil => rfl
  | cons d ds ih =>
    by_cases h : d = c
    · subst h; simp
    · have h3 : (d != c) = true := by simp [h]
      rw [List.dropWhile_cons, if_pos h3, ← ih]
      simp [List.count_cons, h]

/-- The split into at most three parts, by the number of hyphens of the stem. -/
theorem splitLoop_two (s : List Char) :
    (s.count '-' < 2 → (strings.splitLoop ['-'] 2 s).length < 3) ∧
    (2 ≤ s.count '-' → ∃ a b c, strings.splitLoop ['-'] 2 s = [a, b, c]) := by
  rw [splitLoop_single, List.span_eq_take_drop, count_dropWhile]
  cases s.dropWhile (fun x => x != '-') with
  | nil => simp
  | cons y ys =>
    simp only []
    rw [splitLoop_single, List.span_eq_take_drop, count_dropWhile]
    cases ys.dropWhile (fun x => x != '-') with
    | nil => simp
    | cons z zs => simp [strings.splitLoop]

theorem third_of_parts (l : List String) :
    (if h : l.length ≠ 3 then none else some (l.get ⟨2, by omega⟩)) =
      match l with
      | [_, _, c] => some c
      | _ => none := by
  match l with
  | [] => rfl
  | [_] => rfl
  | [_, _] => rfl
  | [_, _, _] => rfl
  | _ :: _ :: _ :: _ :: _ => simp

theorem pluginName_parts (mtch : String) :
    pluginName mtch =
      match nameParts mtch with
      | [_, _, c] => some c
      | _ => none :=
  third_of_parts (nameParts mtch)

theorem pluginName_spec (mtch : String) :
    pluginName mtch = specPluginName (filepath.Base mtch) := by
  rw [pluginName_parts, nameParts_eq]
  unfold specPluginName stemOf
  generalize (filepath.Base mtch).data.takeWhile (fun c => c != '.') = s
  rw [splitLoop_single]
  simp only [List.span_eq_take_drop]
  cases s.dropWhile (fun x => x != '-') with
  | nil => rfl
  | cons y ys =>
    simp only []
    rw [splitLoop_single]
    simp only [List.span_eq_take_drop]
    cases ys.dropWhile (fun x => x != '-') with
    | nil => rfl
    | cons z zs => rfl

/-! ## Lemmas on the map and on the registration loop -/

theorem entriesGet_set (es : List (String × String)) (k v key : String) :
    entriesGet (entriesSet es k v) key = if key = k then some v else entriesGet es key := by
  induction es with
  | nil => simp [entriesSet, entriesGet]
  | cons e rest ih =>
    obtain ⟨k0, v0⟩ := e
    by_cases hk : k = k0
    · subst hk
      simp only [entriesSet, if_true, entriesGet]
      split <;> rfl
    · simp only [entriesSet, if_neg hk, entriesGet, ih]
      by_cases h1 : key = k0
      · have h2 : ¬ key = k := fun e => hk (e.symm.trans h1)
        simp [h1, h2, Ne.symm hk]
      · simp [h1]

theorem entriesGet_registerMatch (es : List (String × String)) (mtch name : String) :
    entriesGet (registerMatch es mtch) name =
      if pluginName mtch = some name then some mtch else entriesGet es name := by
  unfold registerMatch
  cases h : pluginName mtch with
  | none => simp
  | some n =>
    simp only [entriesGet_set, Option.some.injEq]
    by_cases hn : name = n
    · subst hn; simp
    · simp [hn, Ne.symm hn]

theorem lastMatchFor_concat (name : String) (found : List String) (x : String) :
    lastMatchFor name (found ++ [x]) =
      if pluginName x = some name then some x else lastMatchFor name found := by
  unfold lastMatchFor
  rw [List.filter_append]
  by_cases h : pluginName x = some name
  · simp [List.filter_cons, h]
  · simp [List.filter_cons, h]

theorem lastMatchFor_append (name : String) (xs ys : List String) :
    lastMatchFor name (xs ++ ys) =
      match lastMatchFor name ys with
      | some p => some p
      | none => lastMatchFor name xs := by
  unfold lastMatchFor
  rw [List.filter_append, List.getLast?_append]
  cases (ys.filter (fun p => decide (pluginName p = some name))).getLast? <;> rfl

theorem lastMatchFor_mem {name : String} {found : List String} {p : String}
    (h : lastMatchFor name found = some p) : p ∈ found ∧ pluginName p = some name := by
  unfold lastMatchFor at h
  have hm := List.mem_of_mem_getLast? (Option.mem_def.mpr h)
  rw [List.mem_filter] at hm
  exact ⟨hm.1, by simpa using hm.2⟩

/-- What the loop of discoverPluginsByPattern leaves under each key. -/
theorem entriesGet_foldl (found : List String) (es : List (String × String)) (name : String) :
    entriesGet (found.foldl registerMatch es) name =
      match lastMatchFor name found with
      | some p => some p
      | none => entriesGet es name := by
  induction found using List.reverseRecOn with
  | nil => rfl
  | append_singleton xs x ih =>
    rw [List.foldl_append, lastMatchFor_concat]
    simp only [List.foldl_cons, List.foldl_nil, entriesGet_registerMatch, ih]
    split <;> rfl

/-- A successful glob: discoverPluginsByPattern returns no error, and the map it leaves
holds, under each key, the last match of that name, or else what the map held. -/
theorem discoverPluginsByPattern_ok (env : Env) (glob : String) (m : StringMap)
    (found : List String) (h : env.Glob glob = Except.ok found) :
    ∃ es, discoverPluginsByPattern env glob m = (StringMap.made es, none) ∧
      ∀ name, entriesGet es name =
        match lastMatchFor name found with
        | some p => some p
        | none => m.get name := by
  unfold discoverPluginsByPattern
  rw [h]
  refine ⟨_, rfl, fun name => ?_⟩
  rw [entriesGet_foldl]
  cases m <;> rfl

/-- A successful scan of one directory. -/
theorem discoverPluginsInDir_ok (env : Env) (path dir : String) (plugins : Plugins)
    (ps qs : List String) (hd : scanDir env path = Except.ok dir)
    (hp : env.Glob (filepath.Join [dir, "terraform-provider-*"]) = Except.ok ps)
    (hq : env.Glob (filepath.Join [dir, "terraform-provisioner-*"]) = Except.ok qs) :
    ∃ es fs, discoverPluginsInDir env path plugins =
        ({ providerNames := StringMap.made es, provisionerNames := StringMap.made fs }, none) ∧
      ∀ name,
        (entriesGet es name =
          match lastMatchFor name ps with
          | some p => some p
          | none => plugins.providerNames.get name) ∧
        (entriesGet fs name =
          match lastMatchFor name qs with
          | some p => some p
          | none => plugins.provisionerNames.get name) := by
  obtain ⟨es, he, hes⟩ := discoverPluginsByPattern_ok env _ plugins.providerNames ps hp
  obtain ⟨fs, hf, hfs⟩ := discoverPluginsByPattern_ok env _ plugins.provisionerNames qs hq
  refine ⟨es, fs, ?_, fun name => ⟨hes name, hfs name⟩⟩
  unfold discoverPluginsInDir
  rw [hd]
  simp only [he, hf]

/-- The base name of a directory, a separator and a separator-free non-empty name is
that name. -/
theorem Base_append (d b : String) (hb : b ≠ "")
    (hs : ∀ c ∈ b.data, os.IsPathSeparator c = false) :
    filepath.Base (d ++ "/" ++ b) = b := by
  have hdata : (d ++ "/" ++ b).data = d.data ++ '/' :: b.data := by
    simp [String.data_append]
  have hbne : b.data ≠ [] := fun h => hb (String.ext h)
  have hne : d ++ "/" ++ b ≠ "" := by
    intro h
    have := congrArg String.data h
    rw [hdata] at this
    simp at this
  unfold filepath.Base
  rw [if_neg hne, hdata]
  have hrev : (d.data ++ '/' :: b.data).reverse = b.data.reverse ++ '/' :: d.data.reverse := by
    simp
  have hstrip : ((d.data ++ '/' :: b.data).reverse.dropWhile os.IsPathSeparator)
      = (d.data ++ '/' :: b.data).reverse := by
    rw [hrev]
    cases hr : b.data.reverse with
    | nil => exact absurd (List.reverse_eq_nil_iff.mp hr) hbne
    | cons x xs =>
      have hx : x ∈ b.data := by
        rw [← List.mem_reverse, hr]; exact List.mem_cons_self _ _
      rw [List.cons_append, List.dropWhile_cons_of_neg]
      simp [hs x hx]
  have hlast : ((d.data ++ '/' :: b.data).reverse.takeWhile (fun c => !os.IsPathSeparator c))
      = b.data.reverse := by
    rw [hrev, List.takeWhile_append_of_pos]
    · simp [os.IsPathSeparator, os.PathSeparator]
    · intro a ha
      rw [List.mem_reverse] at ha
      simp [hs a ha]
  simp only [hstrip, List.reverse_reverse, hlast]
  rw [if_neg hbne]

/-- A cut of the split loop at a separator that follows a separator-free piece. -/
theorem splitLoop_cut (c : Char) (k : Nat) (a r : List Char)
    (ha : ∀ x ∈ a, (x != c) = true) :
    strings.splitLoop [c] (k + 1) (a ++ c :: r) = a :: strings.splitLoop [c] k r := by
  rw [splitLoop_single, List.span_eq_take_drop]
  have h1 : (a ++ c :: r).takeWhile (fun x => x != c) = a := by
    rw [List.takeWhile_append_of_pos ha]
    simp
  have h2 : (a ++ c :: r).dropWhile (fun x => x != c) = c :: r := by
    have h := List.takeWhile_append_dropWhile (fun x => x != c) (a ++ c :: r)
    rw [h1] at h
    exact List.append_cancel_left h
  rw [h1, h2]

/-- The parts of a stem that starts with two hyphen-terminated, hyphen-free words. -/
theorem splitLoop_two_words (w1 w2 t : List Char)
    (h1 : ∀ x ∈ w1, (x != '-') = true) (h2 : ∀ x ∈ w2, (x != '-') = true) :
    strings.splitLoop ['-'] 2 (w1 ++ '-' :: (w2 ++ '-' :: t)) = [w1, w2, t] := by
  rw [splitLoop_cut '-' 1 w1 _ h1, splitLoop_cut '-' 0 w2 _ h2]
  rfl

/-- Name extraction on a base name made of two hyphen-free, dot-free words, each
followed by a hyphen, and a remainder: the name is the remainder up to its first ".". -/
theorem pluginName_two_words (mtch : String) (w1 w2 rest : List Char)
    (hb : (filepath.Base mtch).data = w1 ++ '-' :: (w2 ++ '-' :: rest))
    (h1 : ∀ x ∈ w1, (x != '-') = true ∧ (x != '.') = true)
    (h2 : ∀ x ∈ w2, (x != '-') = true ∧ (x != '.') = true) :
    nameParts mtch =
      [String.mk w1, String.mk w2, String.mk (rest.takeWhile (fun c => c != '.'))] ∧
    pluginName mtch = some (String.mk (rest.takeWhile (fun c => c != '.'))) := by
  have hstem : stemOf mtch = w1 ++ '-' :: (w2 ++ '-' :: rest.takeWhile (fun c => c != '.')) := by
    unfold stemOf
    rw [hb, List.takeWhile_append_of_pos (fun x hx => (h1 x hx).2), List.takeWhile_cons,
      if_pos (by decide), List.takeWhile_append_of_pos (fun x hx => (h2 x hx).2),
      List.takeWhile_cons, if_pos (by decide)]
  have hparts : nameParts mtch =
      [String.mk w1, String.mk w2, String.mk (rest.takeWhile (fun c => c != '.'))] := by
    rw [nameParts_eq, hstem,
      splitLoop_two_words w1 w2 _ (fun x hx => (h1 x hx).1) (fun x hx => (h2 x hx).1)]
    rfl
  refine ⟨hparts, ?_⟩
  rw [pluginName_parts, hparts]

/-! ## Lemmas on pluginCmd -/

theorem Clean_ne_empty (path : String) : filepath.Clean path ≠ "" := by
  unfold filepath.Clean
  by_cases hp : path = ""
  · rw [if_pos hp]
    decide
  · rw [if_neg hp]
    simp only []
    generalize (if filepath.IsAbs path = true then [os.PathSeparator] else []) ++
      filepath.joinElems
        ((filepath.splitElems path.data).foldl (filepath.cleanStep (filepath.IsAbs path))
          []).reverse = out
    by_cases ho : out = []
    · rw [if_pos ho]
      decide
    · rw [if_neg ho]
      intro hc
      exact ho (congrArg String.data hc)

theorem Dir_ne_empty (path : String) : filepath.Dir path ≠ "" :=
  Clean_ne_empty _

theorem Join_ne_empty (a : String) (rest : List String) (ha : a ≠ "") :
    filepath.Join (a :: rest) ≠ "" := by
  unfold filepath.Join
  rw [if_pos ha]
  exact Clean_ne_empty _

/-- The host-adjacent candidate of pluginCmd is never the empty string. -/
theorem hostAdjacent_ne_empty (env : Env) (path t : String)
    (h : hostAdjacent env path = some t) : t ≠ "" := by
  unfold hostAdjacent at h
  split at h
  · cases h
  · split at h
    · cases h
    · cases h
      exact Join_ne_empty _ _ (Dir_ne_empty _)

/-- The function pluginCmd on a path with a separator. -/
theorem pluginCmd_sep (env : Env) (path : String)
    (h : strings.ContainsRune path os.PathSeparator = true) :
    pluginCmd env path = exec.Command path := by
  unfold pluginCmd
  simp [h]

/-- The function pluginCmd on a bare name: the PATH match if there is one, else the
host-adjacent file if there is one, else the name itself. -/
theorem pluginCmd_bare (env : Env) (path : String)
    (h : strings.ContainsRune path os.PathSeparator = false) :
    pluginCmd env path = exec.Command
      (match env.LookPath path with
       | Except.ok v => v
       | Except.error _ =>
         match hostAdjacent env path with
         | some t => t
         | none => path) := by
  unfold pluginCmd
  simp only [h, Bool.not_false, if_true]
  cases hl : env.LookPath path with
  | ok v =>
    simp only []
    rw [if_neg (env.LookPath_nonempty path v hl)]
  | error e =>
    simp only []
    cases ha : hostAdjacent env path with
    | none =>
      unfold hostAdjacent at ha
      cases hx : env.Executable with
      | error e2 => simp
      | ok exePath =>
        rw [hx] at ha
        simp only [] at ha ⊢
        cases hs : env.Stat (filepath.Join [filepath.Dir exePath, filepath.Base path]) with
        | error e3 => simp
        | ok u => rw [hs] at ha; cases ha
    | some t =>
      have hne := hostAdjacent_ne_empty env path t ha
      unfold hostAdjacent at ha
      cases hx : env.Executable with
      | error e2 => rw [hx] at ha; cases ha
      | ok exePath =>
        rw [hx] at ha
        simp only [] at ha ⊢
        cases hs : env.Stat (filepath.Join [filepath.Dir exePath, filepath.Base path]) with
        | error e3 => rw [hs] at ha; cases ha
        | ok u =>
          rw [hs] at ha
          simp only [Option.some.injEq] at ha
          simp only [ha, if_neg hne]

/-! ## Lemmas on what the catalog stores -/

theorem IsAbs_Clean (path : String) (h : filepath.IsAbs path = true) :
    filepath.IsAbs (filepath.Clean path) = true := by
  have hp : path ≠ "" := by
    intro e
    rw [e] at h
    exact absurd h (by decide)
  unfold filepath.Clean
  rw [if_neg hp]
  simp only [h, if_true]
  rw [if_neg (by simp)]
  simp [filepath.IsAbs, strings.HasPrefix, os.PathSeparator, List.isPrefixOf]

theorem IsAbs_Join (wd path : String) (h : filepath.IsAbs wd = true) :
    filepath.IsAbs (filepath.Join [wd, path]) = true := by
  have hp : wd ≠ "" := by
    intro e
    rw [e] at h
    exact absurd h (by decide)
  unfold filepath.Join
  rw [if_pos hp]
  apply IsAbs_Clean
  unfold filepath.IsAbs strings.HasPrefix at h ⊢
  simp only [strings.Join, String.data_append]
  cases hw : wd.data with
  | nil => rw [hw] at h; exact absurd h (by decide)
  | cons c cs =>
    rw [hw] at h
    have hs : "/".data = ['/'] := rfl
    rw [hs] at h
    simp only [List.isPrefixOf, List.cons_append, Bool.and_true] at h ⊢
    exact h

/-- The directory that discoverPluginsInDir scans is absolute. -/
theorem scanDir_isAbs (env : Env) (path dir : String)
    (h : scanDir env path = Except.ok dir) : filepath.IsAbs dir = true := by
  unfold scanDir at h
  by_cases ha : filepath.IsAbs path = true
  · simp only [ha, Bool.not_true, Bool.false_eq_true, if_false] at h
    cases h
    exact ha
  · simp only [ha, Bool.not_eq_true] at h
    simp only [Bool.not_eq_true] at ha
    simp only [ha, Bool.not_false, if_true] at h
    unfold filepath.Abs at h
    simp only [ha, Bool.false_eq_true, if_false] at h
    cases hg : env.Getwd with
    | error e => rw [hg] at h; cases h
    | ok wd =>
      rw [hg] at h
      cases h
      exact IsAbs_Join wd path (env.Getwd_rooted wd hg)

theorem discoverPluginsByPattern_values (P : String → Prop) (env : Env) (glob : String)
    (m : StringMap)
    (hg : ∀ pat found, env.Glob pat = Except.ok found → ∀ x ∈ found, P x)
    (hm : ∀ k v, m.get k = some v → P v) :
    ∀ k v, (discoverPluginsByPattern env glob m).1.get k = some v → P v := by
  intro k v hk
  cases hglob : env.Glob glob with
  | error e =>
    unfold discoverPluginsByPattern at hk
    rw [hglob] at hk
    exact hm k v hk
  | ok found =>
    obtain ⟨es, he, hes⟩ := discoverPluginsByPattern_ok env glob m found hglob
    rw [he] at hk
    simp only [StringMap.get] at hk
    rw [hes k] at hk
    cases hl : lastMatchFor k found with
    | none =>
      rw [hl] at hk
      exact hm k v hk
    | some p =>
      rw [hl] at hk
      simp only [Option.some.injEq] at hk
      rw [← hk]
      exact hg glob found hglob p (lastMatchFor_mem hl).1

theorem discoverPluginsInDir_values (P : String → Prop) (env : Env) (path : String)
    (plugins : Plugins)
    (hg : ∀ pat found, env.Glob pat = Except.ok found → ∀ x ∈ found, P x)
    (hm : storesOnly P plugins) :
    storesOnly P (discoverPluginsInDir env path plugins).1 := by
  unfold discoverPluginsInDir
  cases scanDir env path with
  | error e => exact hm
  | ok dir =>
    simp only []
    have h1 := discoverPluginsByPattern_values P env
      (filepath.Join [dir, "terraform-provider-*"]) plugins.providerNames hg hm.1
    have h2 := discoverPluginsByPattern_values P env
      (filepath.Join [dir, "terraform-provisioner-*"]) plugins.provisionerNames hg hm.2
    rcases hr1 : discoverPluginsByPattern env
      (filepath.Join [dir, "terraform-provider-*"]) plugins.providerNames with ⟨m1, e1⟩
    rw [hr1] at h1
    cases e1 with
    | some err => exact ⟨h1, hm.2⟩
    | none =>
      simp only []
      rcases hr2 : discoverPluginsByPattern env
        (filepath.Join [dir, "terraform-provisioner-*"]) plugins.provisionerNames with ⟨m2, e2⟩
      rw [hr2] at h2
      cases e2 with
      | some err => exact ⟨h1, h2⟩
      | none => exact ⟨h1, h2⟩

theorem DiscoverPlugins_values (P : String → Prop) (env : Env) (plugins : Plugins)
    (hg : ∀ pat found, env.Glob pat = Except.ok found → ∀ x ∈ found, P x)
    (hd : (DiscoverPlugins env).1 = Except.ok plugins) :
    storesOnly P plugins := by
  have h0 : storesOnly P { providerNames := StringMap.nil, provisionerNames := StringMap.nil } :=
    And.intro (fun k v h => by cases h) (fun k v h => by cases h)
  have h1 := discoverPluginsInDir_values P env "."
    { providerNames := StringMap.nil, provisionerNames := StringMap.nil } hg h0
  unfold DiscoverPlugins at hd
  simp only [] at hd
  rcases hr1 : discoverPluginsInDir env "."
    { providerNames := StringMap.nil, provisionerNames := StringMap.nil } with ⟨p1, e1⟩
  rw [hr1] at hd h1
  cases e1 with
  | some err => cases hd
  | none =>
    simp only [] at hd h1
    cases hx : env.Executable with
    | error e =>
      rw [hx] at hd
      cases hd
      exact h1
    | ok exePath =>
      rw [hx] at hd
      simp only [] at hd
      have h2 := discoverPluginsInDir_values P env (filepath.Dir exePath) p1 hg h1
      rcases hr2 : discoverPluginsInDir env (filepath.Dir exePath) p1 with ⟨p2, e2⟩
      rw [hr2] at hd h2
      cases e2 with
      | some err => cases hd
      | none =>
        cases hd
        exact h2

/-! ## Properties of plugins.go -/

/-- C1. Last writer wins.  A successful discoverPluginsByPattern leaves, under every
name, the full path of the last match of that name in glob order, and the earlier value
under a name that no match produces.  When both directory scans of DiscoverPlugins
succeed, the catalog sends every name to the last match of that name in the matches of
the working directory followed by the matches of the host executable's directory, so a
name found in the second directory is mapped to the second directory's path; and a
listing of terraform-provider-aws followed by terraform-provider-aws.exe leaves "aws"
mapped to the .exe path. -/
theorem C1_last_writer_wins (env : Env) (cwdDir exePath exeDir : String)
    (ps1 qs1 ps2 qs2 : List String)
    (hcwd : scanDir env "." = Except.ok cwdDir)
    (hp1 : env.Glob (filepath.Join [cwdDir, "terraform-provider-*"]) = Except.ok ps1)
    (hq1 : env.Glob (filepath.Join [cwdDir, "terraform-provisioner-*"]) = Except.ok qs1)
    (hexe : env.Executable = Except.ok exePath)
    (hdir : scanDir env (filepath.Dir exePath) = Except.ok exeDir)
    (hp2 : env.Glob (filepath.Join [exeDir, "terraform-provider-*"]) = Except.ok ps2)
    (hq2 : env.Glob (filepath.Join [exeDir, "terraform-provisioner-*"]) = Except.ok qs2) :
    (∀ (glob : String) (m : StringMap) (found : List String),
      env.Glob glob = Except.ok found →
      (discoverPluginsByPattern env glob m).2 = none ∧
      ∀ name, (discoverPluginsByPattern env glob m).1.get name =
        match lastMatchFor name found with
        | some p => some p
        | none => m.get name) ∧
    (∃ plugins, (DiscoverPlugins env).1 = Except.ok plugins ∧
      ∀ name,
        plugins.providerNames.get name = lastMatchFor name (ps1 ++ ps2) ∧
        plugins.provisionerNames.get name = lastMatchFor name (qs1 ++ qs2) ∧
        (∀ p, lastMatchFor name ps2 = some p → plugins.providerNames.get name = some p) ∧
        (∀ p, lastMatchFor name qs2 = some p →
          plugins.provisionerNames.get name = some p)) ∧
    (∀ (d : String) (es : List (String × String)),
      entriesGet
        ([d ++ "/" ++ "terraform-provider-aws",
          d ++ "/" ++ "terraform-provider-aws.exe"].foldl registerMatch es) "aws"
        = some (d ++ "/" ++ "terraform-provider-aws.exe")) := by
  refine ⟨?_, ?_, ?_⟩
  · intro glob m found hg
    obtain ⟨es, he, hes⟩ := discoverPluginsByPattern_ok env glob m found hg
    rw [he]
    exact ⟨rfl, hes⟩
  · obtain ⟨es1, fs1, h1, hget1⟩ :=
      discoverPluginsInDir_ok env "." cwdDir
        { providerNames := StringMap.nil, provisionerNames := StringMap.nil } ps1 qs1
        hcwd hp1 hq1
    obtain ⟨es2, fs2, h2, hget2⟩ :=
      discoverPluginsInDir_ok env (filepath.Dir exePath) exeDir
        { providerNames := StringMap.made es1, provisionerNames := StringMap.made fs1 }
        ps2 qs2 hdir hp2 hq2
    refine ⟨{ providerNames := StringMap.made es2, provisionerNames := StringMap.made fs2 },
      ?_, ?_⟩
    · unfold DiscoverPlugins
      simp only [h1, hexe, h2]
    · intro name
      have a1 := (hget1 name).1
      have b1 := (hget1 name).2
      have a2 := (hget2 name).1
      have b2 := (hget2 name).2
      simp only [StringMap.get] at a1 b1 a2 b2 ⊢
      rw [lastMatchFor_append, lastMatchFor_append, a2, b2, a1, b1]
      refine ⟨?_, ?_, ?_, ?_⟩
      · cases lastMatchFor name ps2 <;> cases lastMatchFor name ps1 <;> rfl
      · cases lastMatchFor name qs2 <;> cases lastMatchFor name qs1 <;> rfl
      · intro p hp; rw [hp]
      · intro p hp; rw [hp]
  · intro d es
    have hname : pluginName (d ++ "/" ++ "terraform-provider-aws.exe") = some "aws" := by
      rw [pluginName_spec, Base_append d "terraform-provider-aws.exe" (by decide) (by decide)]
      rfl
    rw [entriesGet_foldl]
    have hl : lastMatchFor "aws"
        [d ++ "/" ++ "terraform-provider-aws", d ++ "/" ++ "terraform-provider-aws.exe"]
        = some (d ++ "/" ++ "terraform-provider-aws.exe") := by
      have := lastMatchFor_concat "aws" [d ++ "/" ++ "terraform-provider-aws"]
        (d ++ "/" ++ "terraform-provider-aws.exe")
      rw [if_pos hname] at this
      exact this
    rw [hl]

/-- C1 at the machine scanEnv: "aws" is listed twice in the working directory and keeps
the path listed last; "x" is in both directories and keeps the path of the second. -/
theorem C1_last_writer_wins_witness :
    ∃ plugins, (DiscoverPlugins scanEnv).1 = Except.ok plugins ∧
      plugins.providerNames.get "aws" = some "/work/terraform-provider-aws.exe" ∧
      plugins.providerNames.get "x" = some "/opt/tf/terraform-provider-x" ∧
      plugins.provisionerNames.get "shell" = some "/opt/tf/terraform-provisioner-shell" := by
  obtain ⟨plugins, hp, hall⟩ :=
    (C1_last_writer_wins scanEnv "/work" "/opt/tf/terraflex" "/opt/tf"
      ["/work/terraform-provider-aws", "/work/terraform-provider-aws.exe",
        "/work/terraform-provider-x"]
      [] ["/opt/tf/terraform-provider-x"] ["/opt/tf/terraform-provisioner-shell"]
      rfl rfl rfl rfl rfl rfl rfl).2.1
  refine ⟨plugins, hp, ?_, ?_, ?_⟩
  · rw [(hall "aws").1]; rfl
  · rw [(hall "x").1]; rfl
  · rw [(hall "shell").2.1]; rfl

/-- C2. Name extraction equals its reference definition: for every match, the name
computed by the loop body is the specification's name of the base name (cut at the first
".", split on "-" into at most three parts, third part taken verbatim when there are
exactly three).  So terraform-provider-my-custom-thing yields "my-custom-thing", with
parts terraform, provider, my-custom-thing, and terraform-provider-foo.exe.bak yields
"foo". -/
theorem C2_name_extraction_refines_spec :
    (∀ mtch : String, pluginName mtch = specPluginName (filepath.Base mtch)) ∧
    nameParts "terraform-provider-my-custom-thing" =
      ["terraform", "provider", "my-custom-thing"] ∧
    pluginName "terraform-provider-my-custom-thing" = some "my-custom-thing" ∧
    nameParts "terraform-provider-foo.exe.bak" = ["terraform", "provider", "foo"] ∧
    pluginName "terraform-provider-foo.exe.bak" = some "foo" ∧
    (∀ d : String,
      pluginName (d ++ "/" ++ "terraform-provider-my-custom-thing") = some "my-custom-thing" ∧
      pluginName (d ++ "/" ++ "terraform-provider-foo.exe.bak") = some "foo") := by
  refine ⟨pluginName_spec, by decide, by decide, by decide, by decide, fun d => ⟨?_, ?_⟩⟩
  · rw [pluginName_spec,
      Base_append d "terraform-provider-my-custom-thing" (by decide) (by decide)]
    rfl
  · rw [pluginName_spec,
      Base_append d "terraform-provider-foo.exe.bak" (by decide) (by decide)]
    rfl

/-- C3. Malformed file names are skipped silently: a match whose base name, cut at the
first ".", has fewer than two hyphens yields no name, the loop body leaves the map as it
is, the whole loop ends in the map it would end in without that match, and the scan
returns no error. -/
theorem C3_malformed_skipped (env : Env) (glob : String) (m : StringMap)
    (before after : List String) (mtch : String)
    (hmal : (stemOf mtch).count '-' < 2)
    (hglob : env.Glob glob = Except.ok (before ++ mtch :: after)) :
    pluginName mtch = none ∧
    (∀ es, registerMatch es mtch = es) ∧
    (∀ es, (before ++ mtch :: after).foldl registerMatch es
        = (before ++ after).foldl registerMatch es) ∧
    (discoverPluginsByPattern env glob m).2 = none ∧
    (∀ name, (discoverPluginsByPattern env glob m).1.get name =
      match lastMatchFor name (before ++ after) with
      | some p => some p
      | none => m.get name) := by
  have hname : pluginName mtch = none := by
    rw [pluginName_parts, nameParts_eq]
    have hlen := (splitLoop_two (stemOf mtch)).1 hmal
    match hs : strings.splitLoop ['-'] 2 (stemOf mtch) with
    | [] => rfl
    | [_] => rfl
    | [_, _] => rfl
    | _ :: _ :: _ :: _ => rw [hs] at hlen; simp at hlen; omega
  have hreg : ∀ es, registerMatch es mtch = es := by
    intro es
    unfold registerMatch
    rw [hname]
  have hfold : ∀ es, (before ++ mtch :: after).foldl registerMatch es
      = (before ++ after).foldl registerMatch es := by
    intro es
    rw [List.foldl_append, List.foldl_cons, hreg, List.foldl_append]
  refine ⟨hname, hreg, hfold, ?_, ?_⟩
  · unfold discoverPluginsByPattern
    rw [hglob]
  · intro name
    unfold discoverPluginsByPattern
    rw [hglob]
    simp only [StringMap.get]
    rw [hfold, entriesGet_foldl]
    cases m <;> rfl

/-- C3 at the listing of looseEnv: `foo-bar` and `badname` register nothing, and the
scan of the three files returns no error and the single entry of the third. -/
theorem C3_malformed_skipped_witness :
    (stemOf "/work/foo-bar").count '-' < 2 ∧
    (stemOf "/work/badname").count '-' < 2 ∧
    pluginName "/work/foo-bar" = none ∧
    pluginName "/work/badname" = none ∧
    discoverPluginsByPattern looseEnv "/work/*" StringMap.nil
      = (StringMap.made [("aws", "/work/terraform-provider-aws")], none) :=
  ⟨by decide, by decide,
    (C3_malformed_skipped looseEnv "/work/*" StringMap.nil ["/work/badname"]
      ["/work/terraform-provider-aws"] "/work/foo-bar" (by decide) rfl).1,
    (C3_malformed_skipped looseEnv "/work/*" StringMap.nil []
      ["/work/foo-bar", "/work/terraform-provider-aws"] "/work/badname" (by decide) rfl).1,
    rfl⟩

/-- C9. Every match whose base name starts with `terraform-provider-` or with
`terraform-provisioner-` splits into exactly three parts and is registered, under the
text between that prefix and the first "." of the base name (or its end).  That name
holds no ".", and it is the empty string for the base names `terraform-provider-` and
`terraform-provider-.exe`. -/
theorem C9_prefixed_match_registered (mtch rest : String) (es : List (String × String))
    (hbase : filepath.Base mtch = "terraform-provider-" ++ rest ∨
      filepath.Base mtch = "terraform-provisioner-" ++ rest) :
    (nameParts mtch =
        ["terraform", "provider", String.mk (rest.data.takeWhile (fun c => c != '.'))] ∨
      nameParts mtch =
        ["terraform", "provisioner", String.mk (rest.data.takeWhile (fun c => c != '.'))]) ∧
    (nameParts mtch).length = 3 ∧
    pluginName mtch = some (String.mk (rest.data.takeWhile (fun c => c != '.'))) ∧
    registerMatch es mtch =
      entriesSet es (String.mk (rest.data.takeWhile (fun c => c != '.'))) mtch ∧
    entriesGet (registerMatch es mtch)
      (String.mk (rest.data.takeWhile (fun c => c != '.'))) = some mtch ∧
    '.' ∉ (String.mk (rest.data.takeWhile (fun c => c != '.'))).data ∧
    pluginName "terraform-provider-" = some "" ∧
    pluginName "terraform-provider-.exe" = some "" := by
  have hnodot : '.' ∉ (String.mk (rest.data.takeWhile (fun c => c != '.'))).data := by
    intro hmem
    have := List.mem_takeWhile_imp hmem
    simp at this
  have key : (nameParts mtch =
        ["terraform", "provider", String.mk (rest.data.takeWhile (fun c => c != '.'))] ∨
      nameParts mtch =
        ["terraform", "provisioner", String.mk (rest.data.takeWhile (fun c => c != '.'))]) ∧
      pluginName mtch = some (String.mk (rest.data.takeWhile (fun c => c != '.'))) := by
    rcases hbase with h | h
    · have hb : (filepath.Base mtch).data
          = "terraform".data ++ '-' :: ("provider".data ++ '-' :: rest.data) := by
        rw [h, String.data_append]
        rfl
      have hw := pluginName_two_words mtch "terraform".data "provider".data rest.data hb
        (by decide) (by decide)
      exact ⟨Or.inl hw.1, hw.2⟩
    · have hb : (filepath.Base mtch).data
          = "terraform".data ++ '-' :: ("provisioner".data ++ '-' :: rest.data) := by
        rw [h, String.data_append]
        rfl
      have hw := pluginName_two_words mtch "terraform".data "provisioner".data rest.data hb
        (by decide) (by decide)
      exact ⟨Or.inr hw.1, hw.2⟩
  obtain ⟨hparts, hname⟩ := key
  have hreg : registerMatch es mtch =
      entriesSet es (String.mk (rest.data.takeWhile (fun c => c != '.'))) mtch := by
    unfold registerMatch
    rw [hname]
  refine ⟨hparts, ?_, hname, hreg, ?_, hnodot, by decide, by decide⟩
  · rcases hparts with h | h <;> rw [h] <;> rfl
  · rw [hreg, entriesGet_set, if_pos rfl]

/-- C9 at three matches: a provider with an extension, a provisioner, and the base name
`terraform-provider-.exe`, which is registered under the empty name. -/
theorem C9_prefixed_match_registered_witness :
    entriesGet (registerMatch [] "/work/terraform-provider-aws.exe") "aws"
      = some "/work/terraform-provider-aws.exe" ∧
    entriesGet (registerMatch [] "/work/terraform-provisioner-local-exec") "local-exec"
      = some "/work/terraform-provisioner-local-exec" ∧
    entriesGet (registerMatch [] "/work/terraform-provider-.exe") ""
      = some "/work/terraform-provider-.exe" :=
  ⟨(C9_prefixed_match_registered "/work/terraform-provider-aws.exe" "aws.exe" []
      (Or.inl (by decide))).2.2.2.2.1,
    (C9_prefixed_match_registered "/work/terraform-provisioner-local-exec" "local-exec" []
      (Or.inr (by decide))).2.2.2.2.1,
    (C9_prefixed_match_registered "/work/terraform-provider-.exe" ".exe" []
      (Or.inl (by decide))).2.2.2.2.1⟩

/-- C4. Lookup is partitioned by kind.  OpenProvider fails with the error built from
"No provider named %#v" and the requested name exactly when the name is no key of the
provider mapping, that is exactly when HasProvider is false, and its result does not
depend on the provisioner mapping; so a name that only the provisioner mapping holds is
not found as a provider.  The same holds for OpenProvisioner, HasProvisioner and the
provisioner mapping. -/
theorem C4_lookup_partitioned_by_kind (env : Env) (p : Plugins) (name : String) :
    (OpenProvider env p name = Except.error (Error.Errorf "No provider named %#v" name)
      ↔ p.providerNames.get name = none) ∧
    (HasProvider p name = false ↔ p.providerNames.get name = none) ∧
    (∀ other : StringMap,
      OpenProvider env { p with provisionerNames := other } name = OpenProvider env p name ∧
      HasProvider { p with provisionerNames := other } name = HasProvider p name) ∧
    (HasProvisioner p name = true → HasProvider p name = false →
      OpenProvider env p name = Except.error (Error.Errorf "No provider named %#v" name)) ∧
    (OpenProvisioner env p name
        = Except.error (Error.Errorf "No provisioner named %#v" name)
      ↔ p.provisionerNames.get name = none) ∧
    (HasProvisioner p name = false ↔ p.provisionerNames.get name = none) ∧
    (∀ other : StringMap,
      OpenProvisioner env { p with providerNames := other } name
        = OpenProvisioner env p name ∧
      HasProvisioner { p with providerNames := other } name = HasProvisioner p name) ∧
    (HasProvider p name = true → HasProvisioner p name = false →
      OpenProvisioner env p name
        = Except.error (Error.Errorf "No provisioner named %#v" name)) := by
  have h1 : OpenProvider env p name
      = Except.error (Error.Errorf "No provider named %#v" name)
      ↔ p.providerNames.get name = none := by
    unfold OpenProvider
    cases hg : p.providerNames.get name with
    | none => simp
    | some path =>
      simp only []
      cases env.Client { Cmd := pluginCmd env path, Managed := true } with
      | error e => simp
      | ok c =>
        simp only []
        cases env.ResourceProvider c <;> simp
  have h2 : OpenProvisioner env p name
      = Except.error (Error.Errorf "No provisioner named %#v" name)
      ↔ p.provisionerNames.get name = none := by
    unfold OpenProvisioner
    cases hg : p.provisionerNames.get name with
    | none => simp
    | some path =>
      simp only []
      cases env.Client { Cmd := pluginCmd env path, Managed := true } with
      | error e => simp
      | ok c =>
        simp only []
        cases env.ResourceProvisioner c <;> simp
  have h3 : HasProvider p name = false ↔ p.providerNames.get name = none := by
    unfold HasProvider
    cases p.providerNames.get name <;> simp
  have h4 : HasProvisioner p name = false ↔ p.provisionerNames.get name = none := by
    unfold HasProvisioner
    cases p.provisionerNames.get name <;> simp
  exact ⟨h1, h3, fun _ => ⟨rfl, rfl⟩, fun _ hf => h1.mpr (h3.mp hf),
    h2, h4, fun _ => ⟨rfl, rfl⟩, fun _ hf => h2.mpr (h4.mp hf)⟩

/-- C4 at a catalog that knows "shell" as a provisioner only: opening the provider
"shell" fails with the not-found error that carries the name. -/
theorem C4_lookup_partitioned_by_kind_witness :
    HasProvisioner
      { providerNames := StringMap.made [("aws", "/work/terraform-provider-aws")],
        provisionerNames := StringMap.made [("shell", "/work/terraform-provisioner-shell")] }
      "shell" = true ∧
    OpenProvider scanEnv
      { providerNames := StringMap.made [("aws", "/work/terraform-provider-aws")],
        provisionerNames := StringMap.made [("shell", "/work/terraform-provisioner-shell")] }
      "shell" = Except.error (Error.Errorf "No provider named %#v" "shell") :=
  ⟨by decide,
    (C4_lookup_partitioned_by_kind scanEnv
      { providerNames := StringMap.made [("aws", "/work/terraform-provider-aws")],
        provisionerNames := StringMap.made [("shell", "/work/terraform-provisioner-shell")] }
      "shell").2.2.2.1 (by decide) (by decide)⟩

/-- C5. A path that contains the path separator is used verbatim: on every machine,
whatever lies next to the host executable or on the PATH, pluginCmd returns the command
bound to exactly that path. -/
theorem C5_path_with_separator_verbatim (env : Env) (path : String)
    (hsep : strings.ContainsRune path os.PathSeparator = true) :
    pluginCmd env path = exec.Command path ∧
    (pluginCmd env path).Path = path ∧
    (pluginCmd env path).Args = [path] := by
  rw [pluginCmd_sep env path hsep]
  exact ⟨rfl, rfl, rfl⟩

/-- C5 on the machine bothEnv, where a file of the same base name lies next to the host
executable and on the PATH: the relative path is kept as it is. -/
theorem C5_path_with_separator_verbatim_witness :
    strings.ContainsRune "./terraform-provider-aws" os.PathSeparator = true ∧
    pluginCmd bothEnv "./terraform-provider-aws" = exec.Command "./terraform-provider-aws" :=
  ⟨by decide, (C5_path_with_separator_verbatim bothEnv "./terraform-provider-aws" (by decide)).1⟩

/-- C6. A bare plugin name (no path separator).  If the file of that name in the host
executable's directory exists and the PATH search finds nothing, the command is that
host-adjacent file; if the PATH search succeeds and there is no host-adjacent file (or
the host executable cannot be located), the command is the PATH match; if neither lookup
succeeds, the command is the path as passed in. -/
theorem C6_bare_name_single_lookup (env : Env) (path : String)
    (hbare : strings.ContainsRune path os.PathSeparator = false) :
    (∀ exePath u,
      env.Executable = Except.ok exePath →
      env.Stat (filepath.Join [filepath.Dir exePath, filepath.Base path]) = Except.ok u →
      (∀ v, env.LookPath path ≠ Except.ok v) →
      pluginCmd env path
        = exec.Command (filepath.Join [filepath.Dir exePath, filepath.Base path])) ∧
    (∀ v,
      env.LookPath path = Except.ok v →
      hostAdjacent env path = none →
      pluginCmd env path = exec.Command v) ∧
    ((∀ v, env.LookPath path ≠ Except.ok v) →
      hostAdjacent env path = none →
      pluginCmd env path = exec.Command path) := by
  have hc := pluginCmd_bare env path hbare
  refine ⟨?_, ?_, ?_⟩
  · intro exePath u hx hs hl
    have ha : hostAdjacent env path
        = some (filepath.Join [filepath.Dir exePath, filepath.Base path]) := by
      unfold hostAdjacent
      rw [hx]
      simp only [hs]
    rw [hc, ha]
    cases hlp : env.LookPath path with
    | ok v => exact absurd hlp (hl v)
    | error e => rfl
  · intro v hl _
    rw [hc, hl]
  · intro hl ha
    rw [hc, ha]
    cases hlp : env.LookPath path with
    | ok v => exact absurd hlp (hl v)
    | error e => rfl

/-- C6 on three machines: the plugin only next to the host executable, only on the
PATH, and nowhere. -/
theorem C6_bare_name_single_lookup_witness :
    pluginCmd hostOnlyEnv "terraform-provider-aws"
      = exec.Command "/opt/tf/terraform-provider-aws" ∧
    pluginCmd pathOnlyEnv "terraform-provider-aws"
      = exec.Command "/usr/bin/terraform-provider-aws" ∧
    pluginCmd scanEnv "terraform-provider-aws" = exec.Command "terraform-provider-aws" :=
  ⟨(C6_bare_name_single_lookup hostOnlyEnv "terraform-provider-aws" (by decide)).1
      "/opt/tf/terraflex" () rfl rfl (fun v h => by cases h),
    (C6_bare_name_single_lookup pathOnlyEnv "terraform-provider-aws" (by decide)).2.1
      "/usr/bin/terraform-provider-aws" rfl rfl,
    (C6_bare_name_single_lookup scanEnv "terraform-provider-aws" (by decide)).2.2
      (fun v h => by cases h) rfl⟩

/-- C7. A bare plugin name for which both the host-adjacent file exists and the PATH
search succeeds: pluginCmd returns the command bound to the PATH match, which overrides
the host-adjacent file assigned before it. -/
theorem C7_path_match_overrides (env : Env) (path adjacent v : String)
    (hbare : strings.ContainsRune path os.PathSeparator = false)
    (hadj : hostAdjacent env path = some adjacent)
    (hpath : env.LookPath path = Except.ok v) :
    hostAdjacent env path = some adjacent ∧
    pluginCmd env path = exec.Command v ∧
    (adjacent ≠ v → pluginCmd env path ≠ exec.Command adjacent) := by
  rw [pluginCmd_bare env path hbare, hpath]
  refine ⟨hadj, rfl, fun hne hc => hne ?_⟩
  exact (congrArg exec.Cmd.Path hc).symm

/-- C7 on the machine bothEnv: the command is the file in `/usr/bin`. -/
theorem C7_path_match_overrides_witness :
    hostAdjacent bothEnv "terraform-provider-aws" = some "/opt/tf/terraform-provider-aws" ∧
    bothEnv.LookPath "terraform-provider-aws" = Except.ok "/usr/bin/terraform-provider-aws" ∧
    pluginCmd bothEnv "terraform-provider-aws"
      = exec.Command "/usr/bin/terraform-provider-aws" :=
  ⟨rfl, rfl,
    (C7_path_match_overrides bothEnv "terraform-provider-aws" "/opt/tf/terraform-provider-aws"
      "/usr/bin/terraform-provider-aws" (by decide) rfl rfl).2.1⟩

/-- C8. The comments of pluginCmd promise that the host executable's directory is
looked in first and the PATH only if the executable has still not been found.  On the
machine bothEnv the bare name terraform-provider-aws has an existing host-adjacent file,
and yet pluginCmd returns the PATH match, not the host-adjacent file. -/
theorem C8_host_adjacent_not_preferred :
    strings.ContainsRune "terraform-provider-aws" os.PathSeparator = false ∧
    bothEnv.Executable = Except.ok "/opt/tf/terraflex" ∧
    bothEnv.Stat (filepath.Join [filepath.Dir "/opt/tf/terraflex",
      filepath.Base "terraform-provider-aws"]) = Except.ok () ∧
    filepath.Join [filepath.Dir "/opt/tf/terraflex", filepath.Base "terraform-provider-aws"]
      = "/opt/tf/terraform-provider-aws" ∧
    pluginCmd bothEnv "terraform-provider-aws"
      = exec.Command "/usr/bin/terraform-provider-aws" ∧
    pluginCmd bothEnv "terraform-provider-aws"
      ≠ exec.Command "/opt/tf/terraform-provider-aws" :=
  ⟨by decide, rfl, rfl, by decide, by decide, by decide⟩

/-- C10. Composition of discovery and launch.  The directory that discoverPluginsInDir
globs under is absolute.  Assuming every glob match has the form of an absolute
directory, the separator and a base name, every path that DiscoverPlugins stores in
either mapping contains the path separator, so pluginCmd returns the command bound to
the stored path verbatim, on every machine, without the host-adjacent and PATH
lookups. -/
theorem C10_discovered_path_launched_verbatim (env : Env) (plugins : Plugins)
    (name path : String)
    (hglob : ∀ pat found, env.Glob pat = Except.ok found →
      ∀ x ∈ found, ∃ d b : String, filepath.IsAbs d = true ∧ x = d ++ "/" ++ b)
    (hdisc : (DiscoverPlugins env).1 = Except.ok plugins)
    (hget : plugins.providerNames.get name = some path ∨
      plugins.provisionerNames.get name = some path) :
    (∀ p dir, scanDir env p = Except.ok dir → filepath.IsAbs dir = true) ∧
    strings.ContainsRune path os.PathSeparator = true ∧
    (∀ launchEnv : Env, pluginCmd launchEnv path = exec.Command path) := by
  have hall := DiscoverPlugins_values
    (fun x => ∃ d b : String, filepath.IsAbs d = true ∧ x = d ++ "/" ++ b)
    env plugins hglob hdisc
  have hform : ∃ d b : String, filepath.IsAbs d = true ∧ path = d ++ "/" ++ b := by
    rcases hget with h | h
    · exact hall.1 name path h
    · exact hall.2 name path h
  have hsep : strings.ContainsRune path os.PathSeparator = true := by
    obtain ⟨d, b, _, hp⟩ := hform
    rw [hp]
    have hs : "/".data = ['/'] := rfl
    simp [strings.ContainsRune, os.PathSeparator, String.data_append, hs]
  exact ⟨fun p dir h => scanDir_isAbs env p dir h, hsep,
    fun launchEnv => pluginCmd_sep launchEnv path hsep⟩

/-- C10 at the machine scanEnv: the provider "x" it discovers is launched by its stored
path, also on a machine where a host-adjacent file and a PATH match exist. -/
theorem C10_discovered_path_launched_verbatim_witness :
    (DiscoverPlugins scanEnv).1 = Except.ok
      { providerNames := StringMap.made
          [("aws", "/work/terraform-provider-aws.exe"), ("x", "/opt/tf/terraform-provider-x")],
        provisionerNames := StringMap.made [("shell", "/opt/tf/terraform-provisioner-shell")] } ∧
    strings.ContainsRune "/opt/tf/terraform-provider-x" os.PathSeparator = true ∧
    pluginCmd scanEnv "/opt/tf/terraform-provider-x"
      = exec.Command "/opt/tf/terraform-provider-x" := by
  have hglob : ∀ pat found, scanEnv.Glob pat = Except.ok found →
      ∀ x ∈ found, ∃ d b : String, filepath.IsAbs d = true ∧ x = d ++ "/" ++ b := by
    intro pat found h x hx
    simp only [scanEnv] at h
    split at h
    · cases h
      simp only [List.mem_cons, List.mem_singleton, List.not_mem_nil, or_false] at hx
      rcases hx with rfl | rfl | rfl
      · exact ⟨"/work", "terraform-provider-aws", by decide, by decide⟩
      · exact ⟨"/work", "terraform-provider-aws.exe", by decide, by decide⟩
      · exact ⟨"/work", "terraform-provider-x", by decide, by decide⟩
    · split at h
      · cases h
        simp only [List.mem_singleton] at hx
        subst hx
        exact ⟨"/opt/tf", "terraform-provider-x", by decide, by decide⟩
      · split at h
        · cases h
          simp only [List.mem_singleton] at hx
          subst hx
          exact ⟨"/opt/tf", "terraform-provisioner-shell", by decide, by decide⟩
        · cases h
          cases hx
  have h := C10_discovered_path_launched_verbatim scanEnv
    { providerNames := StringMap.made
        [("aws", "/work/terraform-provider-aws.exe"), ("x", "/opt/tf/terraform-provider-x")],
      provisionerNames := StringMap.made [("shell", "/opt/tf/terraform-provisioner-shell")] }
    "x" "/opt/tf/terraform-provider-x" hglob rfl (Or.inl rfl)
  exact ⟨rfl, h.2.1, h.2.2 scanEnv⟩

end terraflex
